import Mathlib

/-!
Verification of the ARCHITECT-BRAVO workflow orchestration engine
(`workflow-orchestration.py`).

This file gives a shallow embedding of the engine's data model and
execution logic and proves / refutes the specification claims about it.

Modelling conventions:

* Python `Enum` classes become Lean inductives; `dataclass`es become
  structures with the same field names.
* Delays are embedded in `ℚ` (the source uses Python ints that are
  multiplied by a float jitter factor; exact rationals model that
  arithmetic without rounding).
* `datetime.now()` is modelled by a monotone `clock : Nat` counter held in
  the orchestrator state; each call to `now()` reads and increments it.
* `Dict[str, Any]` payloads (task input/output, workflow metadata, agent
  results) are modelled as opaque `String` data / association lists: the
  engine never inspects them.
* External agent behaviour (agent selection, the agent call, its timeout)
  is abstracted into an `Oracle`: for a task id and a 1-based attempt
  number it yields either a success result or a failure message.  In the
  source every failure mode (`TimeoutError`, agent exception, no available
  agent) reaches `_handle_task_failure` identically, so one failure
  outcome suffices.
* `EventBus.publish` calls made by the orchestrator are modelled as an
  append-only event log in the orchestrator state: the orchestrator's own
  subscribers (`_handle_task_completed` etc.) only log and mutate nothing.
  The event bus itself, with arbitrary subscribers, is modelled separately
  for the claims about it.
-/

namespace WorkflowOrchestration

/-- `WorkflowStatus` enum of the source. -/
inductive WorkflowStatus
  | pending
  | running
  | completed
  | failed
  | cancelled
  | paused
  deriving DecidableEq, Repr

/-- `TaskStatus` enum of the source. -/
inductive TaskStatus
  | pending
  | running
  | completed
  | failed
  | skipped
  | retrying
  deriving DecidableEq, Repr

/-- `AgentType` enum of the source. -/
inductive AgentType
  | orchestrator
  | requirement_analysis
  | architecture_planning
  | template_selection
  | code_generation
  | testing
  | deployment
  deriving DecidableEq, Repr

/-- `RetryPolicy` dataclass.  `base_delay` and `max_delay` are ints
(seconds) in the source; they live in `ℚ` here because the jitter factor
multiplies them by a real in `[0.5, 1.0)`. -/
structure RetryPolicy where
  max_attempts : Nat := 3
  backoff_strategy : String := "exponential"
  base_delay : ℚ := 1
  max_delay : ℚ := 300
  jitter : Bool := true
  deriving DecidableEq, Repr

/-- `Task` dataclass.  `input_data`/`output_data` are opaque payloads. -/
structure Task where
  id : String
  name : String
  agent_type : AgentType
  input_data : List (String × String) := []
  dependencies : List String := []
  timeout : Nat := 300
  retry_policy : RetryPolicy := {}
  status : TaskStatus := .pending
  output_data : Option String := none
  error_details : Option String := none
  started_at : Option Nat := none
  completed_at : Option Nat := none
  attempt_count : Nat := 0
  estimated_duration : Nat := 60
  deriving DecidableEq, Repr

/-- `WorkflowStage` dataclass. -/
structure WorkflowStage where
  name : String
  tasks : List Task
  parallel_execution : Bool := false
  failure_strategy : String := "stop_on_error"
  deriving DecidableEq, Repr

/-- `Workflow` dataclass. -/
structure Workflow where
  id : String
  name : String
  project_id : String
  stages : List WorkflowStage
  status : WorkflowStatus := .pending
  current_stage : Nat := 0
  started_at : Option Nat := none
  completed_at : Option Nat := none
  metadata : List (String × String) := []
  error_details : Option String := none
  deriving DecidableEq, Repr

/-- `WorkflowOrchestrator._calculate_retry_delay`, lines 329–351.  The
source reads `policy = task.retry_policy` and `attempt =
task.attempt_count`; they are passed directly here.  `r` stands for the
value of `random.random()` (a fresh uniform draw in `[0, 1)`), injected so
the function is deterministic. -/
def calculate_retry_delay (policy : RetryPolicy) (attempt : Nat) (r : ℚ) : ℚ :=
  let delay : ℚ :=
    if policy.backoff_strategy = "fixed" then
      policy.base_delay
    else if policy.backoff_strategy = "linear" then
      policy.base_delay * (attempt : ℚ)
    else if policy.backoff_strategy = "exponential" then
      policy.base_delay * 2 ^ (attempt - 1)
    else
      policy.base_delay
  let delay := min delay policy.max_delay
  if policy.jitter then delay * (1/2 + r * (1/2)) else delay

/-- Outcome of one execution attempt of a task, as observed by
`_execute_task`'s `try` block: either the agent's result dict, or the
failure message (`TimeoutError`, agent exception, or "No available agent
for type …"), all of which reach `_handle_task_failure` identically. -/
inductive AttemptOutcome
  | success (result : String)
  | failure (err : String)
  deriving DecidableEq, Repr

/-- Abstraction of the external agents: the outcome of executing a given
task id at a given 1-based attempt number. -/
def Oracle := String → Nat → AttemptOutcome

/-- Events published by the orchestrator during `execute_workflow`
(section 6 of the spec), with the payload fields the claims mention. -/
inductive Event
  | workflow_started (workflow_id project_id : String)
  | workflow_stage_completed (workflow_id stage_name : String) (stage_index : Nat) (success : Bool)
  | workflow_completed (workflow_id : String) (duration : Nat)
  | workflow_failed (workflow_id error : String)
  | task_completed (workflow_id task_id : String)
  | task_failed (workflow_id task_id error : String) (attempts : Nat)
  deriving DecidableEq, Repr

/-- Mutable orchestrator state touched by a workflow run:
`self.task_results` (the per-run result store, `__init__` line 153), the
log of events published on the bus, and the `datetime.now()` clock.
`writes` is a ghost trace recording the key of every dict assignment
`self.task_results[...] = ...` in order, used to state the write-once
property of the store. -/
structure OrchState where
  task_results : String → Option String
  writes : List String
  events : List Event
  clock : Nat

/-- State of a freshly constructed orchestrator: empty result store, no
events published yet. -/
def OrchState.init : OrchState := ⟨fun _ => none, [], [], 0⟩

/-- One call to `datetime.now()`: read the clock, advance it. -/
def tick (s : OrchState) : Nat × OrchState := (s.clock, { s with clock := s.clock + 1 })

/-- An `await self.event_bus.publish(...)` made by the orchestrator.  The
orchestrator's own subscribers only log, so publishing is recorded as an
event-log append. -/
def publishLog (s : OrchState) (e : Event) : OrchState := { s with events := s.events ++ [e] }

/-- `self.task_results[task.id] = result` (line 283): Python dict
assignment, with the key appended to the ghost write trace. -/
def recordResult (s : OrchState) (task_id result : String) : OrchState :=
  { s with
    task_results := fun k => if k = task_id then some result else s.task_results k
    writes := s.writes ++ [task_id] }

/-- `_can_execute_task`, lines 353–359: every dependency id must be a key
of `self.task_results`. -/
def can_execute_task (s : OrchState) (t : Task) : Bool :=
  t.dependencies.all fun d => (s.task_results d).isSome

/-- `_execute_task` fused with `_handle_task_failure`, lines 258–327 (the
two functions only call each other).  Increments the attempt counter, runs
the attempt; on success records the result and publishes `task.completed`;
on failure stores `error_details` and, while attempts remain, sets
RETRYING and re-dispatches (the backoff sleep has no state effect), else
sets FAILED and publishes `task.failed`.  Returns the mutated task, the
new state, and the boolean result. -/
def execute_task (oracle : Oracle) (workflow_id : String) (t : Task) (s : OrchState) :
    Task × OrchState × Bool :=
  let p := tick s
  let t1 : Task := { t with
    attempt_count := t.attempt_count + 1
    status := .running
    started_at := some p.1 }
  match oracle t1.id t1.attempt_count with
  | .success result =>
    let p2 := tick p.2
    let t2 : Task := { t1 with
      status := .completed
      completed_at := some p2.1
      output_data := some result }
    let s2 := publishLog (recordResult p2.2 t2.id result) (.task_completed workflow_id t2.id)
    (t2, s2, true)
  | .failure err =>
    let t2 : Task := { t1 with error_details := some err }
    if t2.attempt_count < t2.retry_policy.max_attempts then
      execute_task oracle workflow_id { t2 with status := .retrying } p.2
    else
      let p2 := tick p.2
      let t3 : Task := { t2 with status := .failed, completed_at := some p2.1 }
      (t3, publishLog p2.2 (.task_failed workflow_id t3.id err t3.attempt_count), false)
termination_by t.retry_policy.max_attempts - t.attempt_count
decreasing_by
  simp_all
  omega

/-- `_execute_tasks_sequential`, lines 233–242: walk the tasks in order,
skip those whose dependencies are unmet, and return `False` at the first
task that fails (leaving the remaining tasks untouched). -/
def execute_tasks_sequential (oracle : Oracle) (workflow_id : String) :
    List Task → OrchState → List Task × OrchState × Bool
  | [], s => ([], s, true)
  | t :: ts, s =>
    if can_execute_task s t then
      let r := execute_task oracle workflow_id t s
      if r.2.2 then
        let rest := execute_tasks_sequential oracle workflow_id ts r.2.1
        (r.1 :: rest.1, rest.2.1, rest.2.2)
      else
        (r.1 :: ts, r.2.1, false)
    else
      let rest := execute_tasks_sequential oracle workflow_id ts s
      (t :: rest.1, rest.2.1, rest.2.2)

/-- Helper for `_execute_tasks_parallel`: the eligible set is computed
once against the entering state `s0` (line 246), then each eligible task
runs its full attempt chain; state updates are threaded left to right
(the single-threaded event loop interleaves at awaits, but eligibility is
never re-read and distinct tasks write distinct entries, so threading
preserves every per-task observable and the set of results written). -/
def run_parallel (oracle : Oracle) (workflow_id : String) (s0 : OrchState) :
    List Task → OrchState → List Task × OrchState × List Bool
  | [], s => ([], s, [])
  | t :: ts, s =>
    if can_execute_task s0 t then
      let r := execute_task oracle workflow_id t s
      let rest := run_parallel oracle workflow_id s0 ts r.2.1
      (r.1 :: rest.1, rest.2.1, r.2.2 :: rest.2.2)
    else
      let rest := run_parallel oracle workflow_id s0 ts s
      (t :: rest.1, rest.2.1, rest.2.2)

/-- `_execute_tasks_parallel`, lines 244–256: gather over the eligible
tasks; the stage result is `all(result is True)` over the launched tasks
(vacuously `True` when none are eligible). -/
def execute_tasks_parallel (oracle : Oracle) (workflow_id : String)
    (tasks : List Task) (s : OrchState) : List Task × OrchState × Bool :=
  let r := run_parallel oracle workflow_id s tasks s
  (r.1, r.2.1, r.2.2.all id)

/-- `_execute_stage`, lines 226–231. -/
def execute_stage (oracle : Oracle) (workflow_id : String) (stage : WorkflowStage)
    (s : OrchState) : WorkflowStage × OrchState × Bool :=
  let r := if stage.parallel_execution then
      execute_tasks_parallel oracle workflow_id stage.tasks s
    else
      execute_tasks_sequential oracle workflow_id stage.tasks s
  ({ stage with tasks := r.1 }, r.2.1, r.2.2)

/-- The stage loop of `execute_workflow`, lines 183–199: set
`current_stage`, execute the stage; on failure under `stop_on_error` set
workflow status FAILED with an error message and return `False`
immediately (no further event is published — the `workflow.failed`
publish sits in the `except` handler, which this plain `return` does not
reach); otherwise publish `workflow.stage_completed` and continue.
Returns the processed stage list, the workflow, the state, and the
loop's boolean outcome. -/
def run_stages (oracle : Oracle) :
    List WorkflowStage → Nat → Workflow → OrchState →
      List WorkflowStage × Workflow × OrchState × Bool
  | [], _, w, s => ([], w, s, true)
  | stage :: rest, idx, w, s =>
    let w1 := { w with current_stage := idx }
    let r := execute_stage oracle w1.id stage s
    if r.2.2 = false ∧ stage.failure_strategy = "stop_on_error" then
      let w2 := { w1 with
        status := WorkflowStatus.failed
        error_details := some ("Stage " ++ stage.name ++ " failed") }
      (r.1 :: rest, w2, r.2.1, false)
    else
      let s2 := publishLog r.2.1 (.workflow_stage_completed w1.id stage.name idx r.2.2)
      let rr := run_stages oracle rest (idx + 1) w1 s2
      (r.1 :: rr.1, rr.2.1, rr.2.2.1, rr.2.2.2)

/-- `execute_workflow`, lines 167–224: set RUNNING and `started_at`,
publish `workflow.started`, run the stages; on success set COMPLETED,
`completed_at` and publish `workflow.completed` with the elapsed
duration; on a `stop_on_error` stage failure return `False` with the
state `run_stages` left (the `except` branch, the only place that
publishes `workflow.failed`, is unreachable: every task-level fault is
already caught inside `_execute_task`). -/
def execute_workflow (oracle : Oracle) (w : Workflow) (s : OrchState) :
    Workflow × OrchState × Bool :=
  let p := tick s
  let w1 := { w with status := WorkflowStatus.running, started_at := some p.1 }
  let s1 := publishLog p.2 (.workflow_started w1.id w1.project_id)
  let r := run_stages oracle w1.stages 0 w1 s1
  let w2 := { r.2.1 with stages := r.1 }
  if r.2.2.2 then
    let p2 := tick r.2.2.1
    let w3 := { w2 with status := WorkflowStatus.completed, completed_at := some p2.1 }
    (w3, publishLog p2.2 (.workflow_completed w3.id (p2.1 - p.1)), true)
  else
    (w2, r.2.2.1, false)

/-- `pause_workflow`, lines 384–389, acting on the workflow found in
`active_workflows` (an unknown id is a no-op and mutates nothing). -/
def pause_workflow (w : Workflow) : Workflow :=
  { w with status := WorkflowStatus.paused }

/-- `resume_workflow`, lines 391–397: only a PAUSED workflow is moved
back to RUNNING. -/
def resume_workflow (w : Workflow) : Workflow :=
  if w.status = WorkflowStatus.paused then { w with status := WorkflowStatus.running } else w

/-- `cancel_workflow`, lines 399–405: sets CANCELLED and stamps
`completed_at` with `datetime.now()`. -/
def cancel_workflow (w : Workflow) (now : Nat) : Workflow :=
  { w with status := WorkflowStatus.cancelled, completed_at := some now }

/-- `EventBus`, lines 126–143, kept generic: `Data` is the payload type
and `σ` the state a subscriber acts on.  A callback either completes with
a new state or raises with a message. -/
structure EventBus (Data σ : Type) where
  subscribers : String → List (Data → σ → Except String σ)

/-- `EventBus.__init__`: empty subscribers dict (a missing key and an
empty list are indistinguishable to `publish`). -/
def EventBus.emptyBus (Data σ : Type) : EventBus Data σ := ⟨fun _ => []⟩

/-- `EventBus.subscribe`, lines 132–135: append the callback to the
list for its event type. -/
def EventBus.subscribe {Data σ : Type} (bus : EventBus Data σ) (event_type : String)
    (callback : Data → σ → Except String σ) : EventBus Data σ :=
  ⟨fun t => if t = event_type then bus.subscribers t ++ [callback] else bus.subscribers t⟩

/-- The `try/except` around one callback inside `publish`, lines 140–143:
a raising callback is caught and logged, leaving the state as it was. -/
def runCallback {Data σ : Type} (data : Data) (st : σ) (cb : Data → σ → Except String σ) : σ :=
  match cb data st with
  | .ok st2 => st2
  | .error _ => st

/-- `EventBus.publish`, lines 137–143: invoke the type's subscribers in
order, each under its own `try/except`. -/
def EventBus.publish {Data σ : Type} (bus : EventBus Data σ) (event_type : String)
    (data : Data) (st : σ) : σ :=
  (bus.subscribers event_type).foldl (runCallback data) st

/-- All task ids declared in a workflow, in declaration order. -/
def Workflow.taskIds (w : Workflow) : List String :=
  (w.stages.map fun stage => stage.tasks.map Task.id).flatten

/-- Test fixture: a fresh task with the given id and dependencies, two
attempts allowed. -/
def taskNamed (i : String) (deps : List String) : Task :=
  { id := i
    name := i
    agent_type := AgentType.testing
    dependencies := deps
    retry_policy := { max_attempts := 2 } }

/-- Test fixture: agents that always succeed. -/
def oracleOk : Oracle := fun _ _ => AttemptOutcome.success "ok"

/-- Test fixture: agents that fail task "t2" on every attempt and succeed
on everything else. -/
def oracleFailT2 : Oracle := fun i _ =>
  if i = "t2" then AttemptOutcome.failure "boom" else AttemptOutcome.success "ok"

/-- Test fixture for C1: one sequential `continue_on_error` stage of three
independent tasks. -/
def wfThree : Workflow :=
  { id := "wf"
    name := "W"
    project_id := "p"
    stages := [{ name := "s"
                 tasks := [taskNamed "t1" [], taskNamed "t2" [], taskNamed "t3" []]
                 parallel_execution := false
                 failure_strategy := "continue_on_error" }] }

/-- Test fixture for C2: a failing `stop_on_error` stage followed by a
second stage that should never run. -/
def wfStop : Workflow :=
  { id := "wf2"
    name := "W2"
    project_id := "p"
    stages := [{ name := "s1"
                 tasks := [taskNamed "t2" []]
                 failure_strategy := "stop_on_error" },
               { name := "s2"
                 tasks := [taskNamed "t3" []] }] }

/-- Test fixture for C3: a workflow whose only task is "a". -/
def wfA : Workflow :=
  { id := "wfa"
    name := "A"
    project_id := "p"
    stages := [{ name := "sa", tasks := [taskNamed "a" []] }] }

/-- Test fixture for C3: a different workflow whose only task depends on
the id "a", which no task of this workflow carries. -/
def wfB : Workflow :=
  { id := "wfb"
    name := "B"
    project_id := "p"
    stages := [{ name := "sb", tasks := [taskNamed "b" ["a"]] }] }

/-- Test fixture for C8: a parallel stage in which task "t2" (which the
failing oracle never lets succeed) is the declared dependency of task
"b", so "b" never receives a recorded result for its dependency. -/
def wfDep : Workflow :=
  { id := "wfd"
    name := "Dep"
    project_id := "p"
    stages := [{ name := "sd"
                 tasks := [taskNamed "t2" [], taskNamed "b" ["t2"]]
                 parallel_execution := true
                 failure_strategy := "continue_on_error" }] }

/-- Test fixture for C5/C6: a workflow that has already completed. -/
def wfDone : Workflow :=
  { id := "d"
    name := "D"
    project_id := "p"
    stages := []
    status := WorkflowStatus.completed
    started_at := some 3
    completed_at := some 9 }

lemma execute_task_task_shape (o : Oracle) (wid : String) (t : Task) (s : OrchState) :
    (execute_task o wid t s).1.id = t.id ∧
    (execute_task o wid t s).1.dependencies = t.dependencies ∧
    (execute_task o wid t s).1.retry_policy = t.retry_policy := by
  induction t, s using execute_task.induct o wid with
  | case1 t s p t1 a hx =>
    unfold execute_task
    simp_all [tick, publishLog, recordResult]
  | case2 t s p t1 a t2 hx h ih =>
    unfold execute_task
    simp only [show p = tick s from rfl, tick] at *
    simp_all [tick, publishLog, recordResult]
  | case3 t s p t1 a t2 hx h =>
    unfold execute_task
    simp_all [tick, publishLog, recordResult]
    rw [if_neg (by omega)]
    simp

lemma execute_task_attempts (o : Oracle) (wid : String) (t : Task) (s : OrchState) :
    t.attempt_count < (execute_task o wid t s).1.attempt_count ∧
    (t.attempt_count < t.retry_policy.max_attempts →
      (execute_task o wid t s).1.attempt_count ≤ t.retry_policy.max_attempts) := by
  induction t, s using execute_task.induct o wid with
  | case1 t s p t1 a hx =>
    unfold execute_task
    simp_all
    omega
  | case2 t s p t1 a t2 hx h ih =>
    unfold execute_task
    simp only [← show p = tick s from rfl]
    simp_all
    omega
  | case3 t s p t1 a t2 hx h =>
    unfold execute_task
    simp_all
    rw [if_neg (by omega)]
    simp
    omega

lemma execute_task_store (o : Oracle) (wid : String) (t : Task) (s : OrchState) :
    (∀ k, k ≠ t.id → (execute_task o wid t s).2.1.task_results k = s.task_results k) ∧
    (∀ k, s.task_results k ≠ none → (execute_task o wid t s).2.1.task_results k ≠ none) := by
  induction t, s using execute_task.induct o wid with
  | case1 t s p t1 a hx =>
    unfold execute_task
    simp_all [tick, publishLog, recordResult]
    intro k hk
    by_cases hkid : k = t.id <;> simp [hkid, hk]
  | case2 t s p t1 a t2 hx h ih =>
    unfold execute_task
    simp only [show p = tick s from rfl, tick] at *
    simp_all [tick, publishLog, recordResult]
  | case3 t s p t1 a t2 hx h =>
    unfold execute_task
    simp_all [tick, publishLog, recordResult]
    rw [if_neg (by omega)]
    simp [publishLog, tick]

lemma execute_task_writes (o : Oracle) (wid : String) (t : Task) (s : OrchState) :
    (execute_task o wid t s).2.1.writes = s.writes ∨
    (execute_task o wid t s).2.1.writes = s.writes ++ [t.id] := by
  induction t, s using execute_task.induct o wid with
  | case1 t s p t1 a hx =>
    unfold execute_task
    simp_all [tick, publishLog, recordResult]
  | case2 t s p t1 a t2 hx h ih =>
    unfold execute_task
    simp only [show p = tick s from rfl, tick] at *
    simp_all [tick, publishLog, recordResult]
  | case3 t s p t1 a t2 hx h =>
    unfold execute_task
    simp_all [tick, publishLog, recordResult]
    rw [if_neg (by omega)]
    simp [publishLog, tick]

lemma execute_task_events (o : Oracle) (wid : String) (t : Task) (s : OrchState) :
    ∃ e, (execute_task o wid t s).2.1.events = s.events ++ [e] ∧
      (e = Event.task_completed wid t.id ∨ ∃ err a, e = Event.task_failed wid t.id err a) := by
  induction t, s using execute_task.induct o wid with
  | case1 t s p t1 a hx =>
    unfold execute_task
    simp_all [tick, publishLog, recordResult]
  | case2 t s p t1 a t2 hx h ih =>
    unfold execute_task
    simp only [show p = tick s from rfl, tick] at *
    simp_all [tick, publishLog, recordResult]
  | case3 t s p t1 a t2 hx h =>
    unfold execute_task
    simp_all [tick, publishLog, recordResult]
    rw [if_neg (by omega)]
    simp [publishLog, tick]

lemma execute_task_status (o : Oracle) (wid : String) (t : Task) (s : OrchState) :
    ((execute_task o wid t s).2.2 = true → (execute_task o wid t s).1.status = TaskStatus.completed) ∧
    ((execute_task o wid t s).2.2 = false → (execute_task o wid t s).1.status = TaskStatus.failed) := by
  induction t, s using execute_task.induct o wid with
  | case1 t s p t1 a hx =>
    unfold execute_task
    simp_all [tick, publishLog, recordResult]
  | case2 t s p t1 a t2 hx h ih =>
    unfold execute_task
    simp only [show p = tick s from rfl, tick] at *
    simp_all [tick, publishLog, recordResult]
  | case3 t s p t1 a t2 hx h =>
    unfold execute_task
    simp_all [tick, publishLog, recordResult]
    rw [if_neg (by omega)]
    simp

lemma seq_tasks_rel (o : Oracle) (wid : String) (ts : List Task) (s : OrchState) :
    List.Forall₂ (fun t t' => t' = t ∨ ∃ s0, t' = (execute_task o wid t s0).1) ts
      (execute_tasks_sequential o wid ts s).1 := by
  induction ts generalizing s with
  | nil => simp [execute_tasks_sequential]
  | cons t ts ih =>
    unfold execute_tasks_sequential
    split
    · dsimp only
      split
      · exact List.Forall₂.cons (Or.inr ⟨s, rfl⟩) (ih _)
      · exact List.Forall₂.cons (Or.inr ⟨s, rfl⟩)
          (List.forall₂_same.mpr fun x _ => Or.inl rfl)
    · exact List.Forall₂.cons (Or.inl rfl) (ih s)

lemma seq_store_some (o : Oracle) (wid : String) (ts : List Task) (s : OrchState) (k : String)
    (h : s.task_results k ≠ none) :
    (execute_tasks_sequential o wid ts s).2.1.task_results k ≠ none := by
  induction ts generalizing s with
  | nil => simpa [execute_tasks_sequential] using h
  | cons t ts ih =>
    unfold execute_tasks_sequential
    split
    · dsimp only
      split
      · exact ih _ ((execute_task_store o wid t s).2 k h)
      · exact (execute_task_store o wid t s).2 k h
    · exact ih s h

lemma seq_dep_skip (o : Oracle) (wid : String) (d : String) (ts : List Task) (s : OrchState)
    (hd : ∀ t ∈ ts, t.id ≠ d) (hs : s.task_results d = none) :
    (execute_tasks_sequential o wid ts s).2.1.task_results d = none ∧
    List.Forall₂ (fun t t' => t'.dependencies = t.dependencies ∧ (d ∈ t.dependencies → t' = t)) ts
      (execute_tasks_sequential o wid ts s).1 := by
  induction ts generalizing s with
  | nil => simp [execute_tasks_sequential, hs]
  | cons t ts ih =>
    have hd1 : t.id ≠ d := hd t (List.mem_cons_self t ts)
    have hd2 : ∀ u ∈ ts, u.id ≠ d := fun u hu => hd u (List.mem_cons_of_mem t hu)
    unfold execute_tasks_sequential
    split
    · rename_i hc
      have hdep : d ∉ t.dependencies := by
        intro hmem
        have := List.all_eq_true.mp hc d hmem
        simp [hs] at this
      have hst : (execute_task o wid t s).2.1.task_results d = none := by
        rw [(execute_task_store o wid t s).1 d (Ne.symm hd1)]
        exact hs
      dsimp only
      split
      · refine ⟨(ih _ hd2 hst).1,
          List.Forall₂.cons ⟨(execute_task_task_shape o wid t s).2.1, fun hmem => absurd hmem hdep⟩ (ih _ hd2 hst).2⟩
      · exact ⟨hst, List.Forall₂.cons
          ⟨(execute_task_task_shape o wid t s).2.1, fun hmem => absurd hmem hdep⟩
          (List.forall₂_same.mpr fun x _ => ⟨rfl, fun _ => rfl⟩)⟩
    · exact ⟨(ih s hd2 hs).1, List.Forall₂.cons ⟨rfl, fun _ => rfl⟩ (ih s hd2 hs).2⟩

lemma seq_writes (o : Oracle) (wid : String) (ts : List Task) (s : OrchState) :
    ∃ l, (execute_tasks_sequential o wid ts s).2.1.writes = s.writes ++ l ∧
      l.Sublist (ts.map Task.id) := by
  induction ts generalizing s with
  | nil => exact ⟨[], by simp [execute_tasks_sequential], List.nil_sublist _⟩
  | cons t ts ih =>
    unfold execute_tasks_sequential
    split
    · dsimp only
      split
      · obtain ⟨l, hl, hsub⟩ := ih (execute_task o wid t s).2.1
        rcases execute_task_writes o wid t s with hw | hw
        · exact ⟨l, by rw [hl, hw], hsub.cons _⟩
        · exact ⟨t.id :: l, by rw [hl, hw]; simp, hsub.cons₂ _⟩
      · rcases execute_task_writes o wid t s with hw | hw
        · exact ⟨[], by rw [hw]; simp, List.nil_sublist _⟩
        · exact ⟨[t.id], by rw [hw], (List.nil_sublist _).cons₂ _⟩
    · obtain ⟨l, hl, hsub⟩ := ih s
      exact ⟨l, hl, hsub.cons _⟩

lemma seq_events (o : Oracle) (wid : String) (ts : List Task) (s : OrchState) :
    ∃ l, (execute_tasks_sequential o wid ts s).2.1.events = s.events ++ l ∧
      ∀ e ∈ l, ∀ w err, e ≠ Event.workflow_failed w err := by
  induction ts generalizing s with
  | nil => exact ⟨[], by simp [execute_tasks_sequential], by simp⟩
  | cons t ts ih =>
    unfold execute_tasks_sequential
    split
    · obtain ⟨e, he, hshape⟩ := execute_task_events o wid t s
      have hne : ∀ w err, e ≠ Event.workflow_failed w err := by
        rcases hshape with h | ⟨err, a, h⟩ <;>
          (subst h; intro w err2 hcontra; cases hcontra)
      dsimp only
      split
      · obtain ⟨l, hl, hall⟩ := ih (execute_task o wid t s).2.1
        refine ⟨e :: l, by rw [hl, he]; simp, ?_⟩
        intro x hx
        rcases List.mem_cons.mp hx with h | h
        · subst h; exact hne
        · exact hall x h
      · refine ⟨[e], he, ?_⟩
        intro x hx
        rcases List.mem_cons.mp hx with h | h
        · subst h; exact hne
        · cases h
    · obtain ⟨l, hl, hall⟩ := ih s
      exact ⟨l, hl, hall⟩

lemma par_tasks_rel (o : Oracle) (wid : String) (s0 : OrchState) (ts : List Task)
    (s : OrchState) :
    List.Forall₂ (fun t t' => t' = t ∨ ∃ s1, t' = (execute_task o wid t s1).1) ts
      (run_parallel o wid s0 ts s).1 := by
  induction ts generalizing s with
  | nil => simp [run_parallel]
  | cons t ts ih =>
    unfold run_parallel
    split
    · exact List.Forall₂.cons (Or.inr ⟨s, rfl⟩) (ih _)
    · exact List.Forall₂.cons (Or.inl rfl) (ih s)

lemma par_store_some (o : Oracle) (wid : String) (s0 : OrchState) (ts : List Task)
    (s : OrchState) (k : String) (h : s.task_results k ≠ none) :
    (run_parallel o wid s0 ts s).2.1.task_results k ≠ none := by
  induction ts generalizing s with
  | nil => simpa [run_parallel] using h
  | cons t ts ih =>
    unfold run_parallel
    split
    · exact ih _ ((execute_task_store o wid t s).2 k h)
    · exact ih s h

lemma par_dep_skip (o : Oracle) (wid : String) (d : String) (s0 : OrchState) (ts : List Task)
    (s : OrchState) (hd : ∀ t ∈ ts, t.id ≠ d) (h0 : s0.task_results d = none)
    (hs : s.task_results d = none) :
    (run_parallel o wid s0 ts s).2.1.task_results d = none ∧
    List.Forall₂ (fun t t' => t'.dependencies = t.dependencies ∧ (d ∈ t.dependencies → t' = t)) ts
      (run_parallel o wid s0 ts s).1 := by
  induction ts generalizing s with
  | nil => simp [run_parallel, hs]
  | cons t ts ih =>
    have hd1 : t.id ≠ d := hd t (List.mem_cons_self t ts)
    have hd2 : ∀ u ∈ ts, u.id ≠ d := fun u hu => hd u (List.mem_cons_of_mem t hu)
    unfold run_parallel
    split
    · rename_i hc
      have hdep : d ∉ t.dependencies := by
        intro hmem
        have := List.all_eq_true.mp hc d hmem
        simp [h0] at this
      have hst : (execute_task o wid t s).2.1.task_results d = none := by
        rw [(execute_task_store o wid t s).1 d (Ne.symm hd1)]
        exact hs
      exact ⟨(ih _ hd2 hst).1,
        List.Forall₂.cons ⟨(execute_task_task_shape o wid t s).2.1, fun hmem => absurd hmem hdep⟩ (ih _ hd2 hst).2⟩
    · exact ⟨(ih s hd2 hs).1, List.Forall₂.cons ⟨rfl, fun _ => rfl⟩ (ih s hd2 hs).2⟩

lemma par_writes (o : Oracle) (wid : String) (s0 : OrchState) (ts : List Task)
    (s : OrchState) :
    ∃ l, (run_parallel o wid s0 ts s).2.1.writes = s.writes ++ l ∧
      l.Sublist (ts.map Task.id) := by
  induction ts generalizing s with
  | nil => exact ⟨[], by simp [run_parallel], List.nil_sublist _⟩
  | cons t ts ih =>
    unfold run_parallel
    split
    · obtain ⟨l, hl, hsub⟩ := ih (execute_task o wid t s).2.1
      rcases execute_task_writes o wid t s with hw | hw
      · exact ⟨l, by rw [hl, hw], hsub.cons _⟩
      · exact ⟨t.id :: l, by rw [hl, hw]; simp, hsub.cons₂ _⟩
    · obtain ⟨l, hl, hsub⟩ := ih s
      exact ⟨l, hl, hsub.cons _⟩

lemma par_events (o : Oracle) (wid : String) (s0 : OrchState) (ts : List Task)
    (s : OrchState) :
    ∃ l, (run_parallel o wid s0 ts s).2.1.events = s.events ++ l ∧
      ∀ e ∈ l, ∀ w err, e ≠ Event.workflow_failed w err := by
  induction ts generalizing s with
  | nil => exact ⟨[], by simp [run_parallel], by simp⟩
  | cons t ts ih =>
    unfold run_parallel
    split
    · obtain ⟨e, he, hshape⟩ := execute_task_events o wid t s
      have hne : ∀ w err, e ≠ Event.workflow_failed w err := by
        rcases hshape with h | ⟨err, a, h⟩ <;>
          (subst h; intro w err2 hcontra; cases hcontra)
      obtain ⟨l, hl, hall⟩ := ih (execute_task o wid t s).2.1
      refine ⟨e :: l, by rw [hl, he]; simp, ?_⟩
      intro x hx
      rcases List.mem_cons.mp hx with h | h
      · subst h; exact hne
      · exact hall x h
    · obtain ⟨l, hl, hall⟩ := ih s
      exact ⟨l, hl, hall⟩

lemma stage_shape (o : Oracle) (wid : String) (stage : WorkflowStage) (s : OrchState) :
    (execute_stage o wid stage s).1.name = stage.name ∧
    (execute_stage o wid stage s).1.failure_strategy = stage.failure_strategy := by
  unfold execute_stage
  by_cases hp : stage.parallel_execution <;> simp [hp]

lemma stage_tasks_rel (o : Oracle) (wid : String) (stage : WorkflowStage) (s : OrchState) :
    List.Forall₂ (fun t t' => t' = t ∨ ∃ s1, t' = (execute_task o wid t s1).1)
      stage.tasks (execute_stage o wid stage s).1.tasks := by
  unfold execute_stage execute_tasks_parallel
  by_cases hp : stage.parallel_execution
  · simpa [hp] using par_tasks_rel o wid s stage.tasks s
  · simpa [hp] using seq_tasks_rel o wid stage.tasks s

lemma stage_store_some (o : Oracle) (wid : String) (stage : WorkflowStage) (s : OrchState)
    (k : String) (h : s.task_results k ≠ none) :
    (execute_stage o wid stage s).2.1.task_results k ≠ none := by
  unfold execute_stage execute_tasks_parallel
  by_cases hp : stage.parallel_execution
  · simpa [hp] using par_store_some o wid s stage.tasks s k h
  · simpa [hp] using seq_store_some o wid stage.tasks s k h

lemma stage_dep_skip (o : Oracle) (wid : String) (d : String) (stage : WorkflowStage)
    (s : OrchState) (hd : ∀ t ∈ stage.tasks, t.id ≠ d) (hs : s.task_results d = none) :
    (execute_stage o wid stage s).2.1.task_results d = none ∧
    List.Forall₂ (fun t t' => t'.dependencies = t.dependencies ∧ (d ∈ t.dependencies → t' = t)) stage.tasks
      (execute_stage o wid stage s).1.tasks := by
  unfold execute_stage execute_tasks_parallel
  by_cases hp : stage.parallel_execution
  · have := par_dep_skip o wid d s stage.tasks s hd hs hs
    constructor
    · simpa [hp] using this.1
    · simpa [hp] using this.2
  · have := seq_dep_skip o wid d stage.tasks s hd hs
    constructor
    · simpa [hp] using this.1
    · simpa [hp] using this.2

lemma stage_writes (o : Oracle) (wid : String) (stage : WorkflowStage) (s : OrchState) :
    ∃ l, (execute_stage o wid stage s).2.1.writes = s.writes ++ l ∧
      l.Sublist (stage.tasks.map Task.id) := by
  unfold execute_stage execute_tasks_parallel
  by_cases hp : stage.parallel_execution
  · obtain ⟨l, hl, hsub⟩ := par_writes o wid s stage.tasks s
    exact ⟨l, by simpa [hp] using hl, hsub⟩
  · obtain ⟨l, hl, hsub⟩ := seq_writes o wid stage.tasks s
    exact ⟨l, by simpa [hp] using hl, hsub⟩

lemma stage_events (o : Oracle) (wid : String) (stage : WorkflowStage) (s : OrchState) :
    ∃ l, (execute_stage o wid stage s).2.1.events = s.events ++ l ∧
      ∀ e ∈ l, ∀ w err, e ≠ Event.workflow_failed w err := by
  unfold execute_stage execute_tasks_parallel
  by_cases hp : stage.parallel_execution
  · obtain ⟨l, hl, hall⟩ := par_events o wid s stage.tasks s
    exact ⟨l, by simpa [hp] using hl, hall⟩
  · obtain ⟨l, hl, hall⟩ := seq_events o wid stage.tasks s
    exact ⟨l, by simpa [hp] using hl, hall⟩

lemma forall₂_mem_right {α β : Type} {R : α → β → Prop} {l : List α} {l' : List β}
    (h : List.Forall₂ R l l') {y : β} (hy : y ∈ l') : ∃ x ∈ l, R x y := by
  induction h with
  | nil => cases hy
  | cons hr hrest ih =>
    rcases List.mem_cons.mp hy with hh | hh
    · subst hh; exact ⟨_, List.mem_cons_self _ _, hr⟩
    · obtain ⟨x, hx, hRx⟩ := ih hh
      exact ⟨x, List.mem_cons_of_mem _ hx, hRx⟩

lemma stages_tasks_rel (o : Oracle) (stages : List WorkflowStage) (idx : Nat) (w : Workflow)
    (s : OrchState) :
    List.Forall₂ (fun st st' =>
        List.Forall₂ (fun t t' => t' = t ∨ ∃ s1, t' = (execute_task o w.id t s1).1)
          st.tasks st'.tasks)
      stages (run_stages o stages idx w s).1 := by
  induction stages generalizing idx w s with
  | nil => simp [run_stages]
  | cons stage rest ih =>
    unfold run_stages
    dsimp only
    split
    · exact List.Forall₂.cons (stage_tasks_rel o w.id stage s)
        (List.forall₂_same.mpr fun st _ => List.forall₂_same.mpr fun t _ => Or.inl rfl)
    · exact List.Forall₂.cons (stage_tasks_rel o w.id stage s)
        (ih (idx + 1) { w with current_stage := idx }
          (publishLog (execute_stage o w.id stage s).2.1
            (Event.workflow_stage_completed w.id stage.name idx
              (execute_stage o w.id stage s).2.2)))

lemma stages_store_some (o : Oracle) (stages : List WorkflowStage) (idx : Nat) (w : Workflow)
    (s : OrchState) (k : String) (h : s.task_results k ≠ none) :
    (run_stages o stages idx w s).2.2.1.task_results k ≠ none := by
  induction stages generalizing idx w s with
  | nil => simpa [run_stages] using h
  | cons stage rest ih =>
    unfold run_stages
    dsimp only
    split
    · exact stage_store_some o w.id stage s k h
    · exact ih (idx + 1) { w with current_stage := idx } _
        (by simpa [publishLog] using stage_store_some o w.id stage s k h)

lemma stages_dep_skip (o : Oracle) (stages : List WorkflowStage) (idx : Nat) (w : Workflow)
    (s : OrchState) (d : String)
    (hd : ∀ st ∈ stages, ∀ t ∈ st.tasks, t.id ≠ d) (hs : s.task_results d = none) :
    (run_stages o stages idx w s).2.2.1.task_results d = none ∧
    List.Forall₂ (fun st st' =>
        List.Forall₂ (fun t t' => t'.dependencies = t.dependencies ∧ (d ∈ t.dependencies → t' = t)) st.tasks st'.tasks)
      stages (run_stages o stages idx w s).1 := by
  induction stages generalizing idx w s with
  | nil => simp [run_stages, hs]
  | cons stage rest ih =>
    have hd1 : ∀ t ∈ stage.tasks, t.id ≠ d := hd stage (List.mem_cons_self _ _)
    have hd2 : ∀ st ∈ rest, ∀ t ∈ st.tasks, t.id ≠ d :=
      fun st hst => hd st (List.mem_cons_of_mem _ hst)
    have hstage := stage_dep_skip o w.id d stage s hd1 hs
    unfold run_stages
    dsimp only
    split
    · exact ⟨hstage.1, List.Forall₂.cons hstage.2
        (List.forall₂_same.mpr fun st _ => List.forall₂_same.mpr fun t _ => ⟨rfl, fun _ => rfl⟩)⟩
    · have hrec := ih (idx + 1) { w with current_stage := idx }
        (publishLog (execute_stage o w.id stage s).2.1
          (Event.workflow_stage_completed w.id stage.name idx
            (execute_stage o w.id stage s).2.2))
        hd2 (by simpa [publishLog] using hstage.1)
      exact ⟨hrec.1, List.Forall₂.cons hstage.2 hrec.2⟩

lemma stages_writes (o : Oracle) (stages : List WorkflowStage) (idx : Nat) (w : Workflow)
    (s : OrchState) :
    ∃ l, (run_stages o stages idx w s).2.2.1.writes = s.writes ++ l ∧
      l.Sublist ((stages.map fun st => st.tasks.map Task.id).flatten) := by
  induction stages generalizing idx w s with
  | nil => exact ⟨[], by simp [run_stages], List.nil_sublist _⟩
  | cons stage rest ih =>
    obtain ⟨l1, hl1, hsub1⟩ := stage_writes o w.id stage s
    unfold run_stages
    dsimp only
    split
    · refine ⟨l1, hl1, ?_⟩
      simpa using hsub1.trans (List.sublist_append_left _ _)
    · obtain ⟨l2, hl2, hsub2⟩ := ih (idx + 1)
        { w with current_stage := idx }
        (publishLog (execute_stage o w.id stage s).2.1
          (Event.workflow_stage_completed w.id stage.name idx
            (execute_stage o w.id stage s).2.2))
      refine ⟨l1 ++ l2, ?_, ?_⟩
      · rw [hl2]
        simp [publishLog, hl1]
      · simpa using List.Sublist.append hsub1 hsub2

lemma stages_events (o : Oracle) (stages : List WorkflowStage) (idx : Nat) (w : Workflow)
    (s : OrchState) :
    ∃ l, (run_stages o stages idx w s).2.2.1.events = s.events ++ l ∧
      ∀ e ∈ l, ∀ ww err, e ≠ Event.workflow_failed ww err := by
  induction stages generalizing idx w s with
  | nil => exact ⟨[], by simp [run_stages], by simp⟩
  | cons stage rest ih =>
    obtain ⟨l1, hl1, hall1⟩ := stage_events o w.id stage s
    unfold run_stages
    dsimp only
    split
    · exact ⟨l1, hl1, hall1⟩
    · obtain ⟨l2, hl2, hall2⟩ := ih (idx + 1)
        { w with current_stage := idx }
        (publishLog (execute_stage o w.id stage s).2.1
          (Event.workflow_stage_completed w.id stage.name idx
            (execute_stage o w.id stage s).2.2))
      refine ⟨l1 ++ [Event.workflow_stage_completed w.id stage.name idx
          (execute_stage o w.id stage s).2.2] ++ l2, ?_, ?_⟩
      · rw [hl2]
        simp [publishLog, hl1]
      · intro e he ww err
        rcases List.mem_append.mp he with he | he
        · rcases List.mem_append.mp he with he | he
          · exact hall1 e he ww err
          · rcases List.mem_singleton.mp he with rfl
            intro hcontra; cases hcontra
        · exact hall2 e he ww err

lemma run_stages_halt (o : Oracle) (stages : List WorkflowStage) (idx : Nat) (w : Workflow)
    (s : OrchState) (h : (run_stages o stages idx w s).2.2.2 = false) :
    (run_stages o stages idx w s).2.1.status = WorkflowStatus.failed ∧
    (run_stages o stages idx w s).2.1.error_details ≠ none ∧
    ∃ i, i < stages.length ∧
      (run_stages o stages idx w s).2.1.current_stage = idx + i ∧
      (∃ st, stages[i]? = some st ∧ st.failure_strategy = "stop_on_error") ∧
      (run_stages o stages idx w s).1.drop (i + 1) = stages.drop (i + 1) := by
  induction stages generalizing idx w s with
  | nil => simp [run_stages] at h
  | cons stage rest ih =>
    unfold run_stages at h ⊢
    dsimp only at h ⊢
    split at h
    · rename_i hcond
      rw [if_pos hcond]
      exact ⟨rfl, by simp, 0, by simp, by simp, ⟨stage, by simp, hcond.2⟩, by simp⟩
    · rename_i hcond
      rw [if_neg hcond]
      obtain ⟨h1, h2, i, hlen, hcur, ⟨st, hst, hstrat⟩, hdrop⟩ := ih _ _ _ h
      refine ⟨h1, h2, i + 1, by simpa using hlen, by rw [hcur]; omega,
        ⟨st, by simpa using hst, hstrat⟩, by simpa using hdrop⟩

lemma stages_id (o : Oracle) (stages : List WorkflowStage) (idx : Nat) (w : Workflow)
    (s : OrchState) : (run_stages o stages idx w s).2.1.id = w.id := by
  induction stages generalizing idx w s with
  | nil => rfl
  | cons stage rest ih =>
    unfold run_stages
    dsimp only
    split
    · rfl
    · exact ih (idx + 1) { w with current_stage := idx }
        (publishLog (execute_stage o w.id stage s).2.1
          (Event.workflow_stage_completed w.id stage.name idx
            (execute_stage o w.id stage s).2.2))

lemma execute_workflow_tasks_rel (o : Oracle) (w : Workflow) (s : OrchState) :
    List.Forall₂ (fun st st' =>
        List.Forall₂ (fun t t' => t' = t ∨ ∃ s1, t' = (execute_task o w.id t s1).1)
          st.tasks st'.tasks)
      w.stages (execute_workflow o w s).1.stages := by
  unfold execute_workflow
  dsimp only
  split
  · exact stages_tasks_rel o w.stages 0
      { w with status := WorkflowStatus.running, started_at := some (tick s).1 }
      (publishLog (tick s).2 (Event.workflow_started w.id w.project_id))
  · exact stages_tasks_rel o w.stages 0
      { w with status := WorkflowStatus.running, started_at := some (tick s).1 }
      (publishLog (tick s).2 (Event.workflow_started w.id w.project_id))

lemma execute_workflow_store_some (o : Oracle) (w : Workflow) (s : OrchState) (k : String)
    (h : s.task_results k ≠ none) :
    (execute_workflow o w s).2.1.task_results k ≠ none := by
  unfold execute_workflow
  dsimp only
  split
  · simpa [publishLog, tick] using
      stages_store_some o w.stages 0 _ _ k (by simpa [publishLog, tick] using h)
  · simpa [publishLog, tick] using
      stages_store_some o w.stages 0 _ _ k (by simpa [publishLog, tick] using h)

lemma execute_workflow_writes (o : Oracle) (w : Workflow) (s : OrchState) :
    ∃ l, (execute_workflow o w s).2.1.writes = s.writes ++ l ∧
      l.Sublist w.taskIds := by
  unfold execute_workflow
  dsimp only
  obtain ⟨l, hl, hsub⟩ := stages_writes o w.stages 0
    { w with status := WorkflowStatus.running, started_at := some (tick s).1 }
    (publishLog (tick s).2 (Event.workflow_started w.id w.project_id))
  split
  · exact ⟨l, by simpa [publishLog, tick] using hl, hsub⟩
  · exact ⟨l, by simpa [publishLog, tick] using hl, hsub⟩

lemma execute_workflow_events (o : Oracle) (w : Workflow) (s : OrchState) :
    ∃ l, (execute_workflow o w s).2.1.events = s.events ++ l ∧
      ∀ e ∈ l, ∀ ww err, e ≠ Event.workflow_failed ww err := by
  unfold execute_workflow
  dsimp only
  obtain ⟨l, hl, hall⟩ := stages_events o w.stages 0
    { w with status := WorkflowStatus.running, started_at := some (tick s).1 }
    (publishLog (tick s).2 (Event.workflow_started w.id w.project_id))
  split
  · refine ⟨Event.workflow_started w.id w.project_id :: l ++
      [Event.workflow_completed (run_stages o w.stages 0
          { w with status := WorkflowStatus.running, started_at := some (tick s).1 }
          (publishLog (tick s).2 (Event.workflow_started w.id w.project_id))).2.1.id
        ((tick (run_stages o w.stages 0
        { w with status := WorkflowStatus.running, started_at := some (tick s).1 }
        (publishLog (tick s).2 (Event.workflow_started w.id w.project_id))).2.2.1).1 -
          (tick s).1)], ?_, ?_⟩
    · simp only [publishLog, tick] at hl ⊢
      rw [hl]
      simp
    · intro e he ww err
      rcases List.mem_cons.mp he with rfl | he
      · intro hcontra; cases hcontra
      · rcases List.mem_append.mp he with he | he
        · exact hall e he ww err
        · rcases List.mem_singleton.mp he with rfl
          intro hcontra; cases hcontra
  · refine ⟨Event.workflow_started w.id w.project_id :: l, ?_, ?_⟩
    · simp only [publishLog, tick] at hl ⊢
      rw [hl]
      simp
    · intro e he ww err
      rcases List.mem_cons.mp he with rfl | he
      · intro hcontra; cases hcontra
      · exact hall e he ww err

lemma execute_workflow_dep_skip (o : Oracle) (w : Workflow) (s : OrchState) (d : String)
    (hd : ∀ st ∈ w.stages, ∀ t ∈ st.tasks, t.id ≠ d)
    (hs : s.task_results d = none) :
    List.Forall₂ (fun st st' =>
        List.Forall₂ (fun t t' => t'.dependencies = t.dependencies ∧ (d ∈ t.dependencies → t' = t)) st.tasks st'.tasks)
      w.stages (execute_workflow o w s).1.stages := by
  unfold execute_workflow
  dsimp only
  have hrec := stages_dep_skip o w.stages 0
    { w with status := WorkflowStatus.running, started_at := some (tick s).1 }
    (publishLog (tick s).2 (Event.workflow_started w.id w.project_id)) d hd
    (by simpa [publishLog, tick] using hs)
  split
  · exact hrec.2
  · exact hrec.2

lemma execute_workflow_halt (o : Oracle) (w : Workflow) (s : OrchState)
    (h : (execute_workflow o w s).2.2 = false) :
    (execute_workflow o w s).1.status = WorkflowStatus.failed ∧
    (execute_workflow o w s).1.error_details ≠ none ∧
    ∃ i, i < w.stages.length ∧
      (execute_workflow o w s).1.current_stage = i ∧
      (∃ st, w.stages[i]? = some st ∧ st.failure_strategy = "stop_on_error") ∧
      (execute_workflow o w s).1.stages.drop (i + 1) = w.stages.drop (i + 1) := by
  unfold execute_workflow at h ⊢
  dsimp only at h ⊢
  split at h
  · cases h
  · rename_i hcond
    rw [if_neg hcond]
    have hb : (run_stages o w.stages 0
        { w with status := WorkflowStatus.running, started_at := some (tick s).1 }
        (publishLog (tick s).2 (Event.workflow_started w.id w.project_id))).2.2.2 = false := by
      simpa using hcond
    obtain ⟨h1, h2, i, hlen, hcur, hstage, hdrop⟩ := run_stages_halt o w.stages 0 _ _ hb
    exact ⟨h1, h2, i, hlen, by simpa using hcur, hstage, hdrop⟩

lemma execute_task_outcome (o : Oracle) (wid : String) (t : Task) (s : OrchState) :
    (execute_task o wid t s).1.status = TaskStatus.completed ∨
    ((execute_task o wid t s).1.status = TaskStatus.failed ∧
      t.retry_policy.max_attempts ≤ (execute_task o wid t s).1.attempt_count) := by
  induction t, s using execute_task.induct o wid with
  | case1 t s p t1 a hx =>
    unfold execute_task
    simp_all
  | case2 t s p t1 a t2 hx h ih =>
    unfold execute_task
    simp only [← show p = tick s from rfl]
    simp_all
  | case3 t s p t1 a t2 hx h =>
    unfold execute_task
    simp_all
    rw [if_neg (by omega)]
    simp
    omega

lemma seq_dep_unrecorded (o : Oracle) (wid : String) (d : String) (ts : List Task)
    (s : OrchState)
    (h : (execute_tasks_sequential o wid ts s).2.1.task_results d = none) :
    s.task_results d = none ∧
    List.Forall₂ (fun t t' => t'.dependencies = t.dependencies ∧ (d ∈ t.dependencies → t' = t))
      ts (execute_tasks_sequential o wid ts s).1 := by
  induction ts generalizing s with
  | nil =>
    exact ⟨by simpa [execute_tasks_sequential] using h, by simp [execute_tasks_sequential]⟩
  | cons t ts ih =>
    unfold execute_tasks_sequential at h ⊢
    dsimp only at h ⊢
    by_cases hc : can_execute_task s t
    · rw [if_pos hc] at h ⊢
      by_cases hr : (execute_task o wid t s).2.2
      · rw [if_pos hr] at h ⊢
        obtain ⟨hs', hrel⟩ := ih _ h
        have hs0 : s.task_results d = none := by
          by_contra hne
          exact (execute_task_store o wid t s).2 d hne hs'
        refine ⟨hs0, List.Forall₂.cons ⟨(execute_task_task_shape o wid t s).2.1, ?_⟩ hrel⟩
        intro hmem
        have := List.all_eq_true.mp hc d hmem
        simp [hs0] at this
      · rw [if_neg hr] at h ⊢
        have hs0 : s.task_results d = none := by
          by_contra hne
          exact (execute_task_store o wid t s).2 d hne h
        refine ⟨hs0, List.Forall₂.cons ⟨(execute_task_task_shape o wid t s).2.1, ?_⟩
          (List.forall₂_same.mpr fun x _ => ⟨rfl, fun _ => rfl⟩)⟩
        intro hmem
        have := List.all_eq_true.mp hc d hmem
        simp [hs0] at this
    · rw [if_neg hc] at h ⊢
      obtain ⟨hs0, hrel⟩ := ih s h
      exact ⟨hs0, List.Forall₂.cons ⟨rfl, fun _ => rfl⟩ hrel⟩

lemma par_dep_unrecorded (o : Oracle) (wid : String) (d : String) (s0 : OrchState)
    (ts : List Task) (s : OrchState) (h0 : s0.task_results d = none)
    (h : (run_parallel o wid s0 ts s).2.1.task_results d = none) :
    s.task_results d = none ∧
    List.Forall₂ (fun t t' => t'.dependencies = t.dependencies ∧ (d ∈ t.dependencies → t' = t))
      ts (run_parallel o wid s0 ts s).1 := by
  induction ts generalizing s with
  | nil => exact ⟨by simpa [run_parallel] using h, by simp [run_parallel]⟩
  | cons t ts ih =>
    unfold run_parallel at h ⊢
    dsimp only at h ⊢
    by_cases hc : can_execute_task s0 t
    · rw [if_pos hc] at h ⊢
      obtain ⟨hs', hrel⟩ := ih _ h
      have hs0 : s.task_results d = none := by
        by_contra hne
        exact (execute_task_store o wid t s).2 d hne hs'
      refine ⟨hs0, List.Forall₂.cons ⟨(execute_task_task_shape o wid t s).2.1, ?_⟩ hrel⟩
      intro hmem
      have := List.all_eq_true.mp hc d hmem
      simp [h0] at this
    · rw [if_neg hc] at h ⊢
      obtain ⟨hs0, hrel⟩ := ih s h
      exact ⟨hs0, List.Forall₂.cons ⟨rfl, fun _ => rfl⟩ hrel⟩

lemma stage_dep_unrecorded (o : Oracle) (wid : String) (d : String) (stage : WorkflowStage)
    (s : OrchState)
    (h : (execute_stage o wid stage s).2.1.task_results d = none) :
    s.task_results d = none ∧
    List.Forall₂ (fun t t' => t'.dependencies = t.dependencies ∧ (d ∈ t.dependencies → t' = t))
      stage.tasks (execute_stage o wid stage s).1.tasks := by
  by_cases hp : stage.parallel_execution
  · have h' : (run_parallel o wid s stage.tasks s).2.1.task_results d = none := by
      simpa [execute_stage, execute_tasks_parallel, hp] using h
    have hs : s.task_results d = none := by
      by_contra hne
      exact par_store_some o wid s stage.tasks s d hne h'
    obtain ⟨_, hrel⟩ := par_dep_unrecorded o wid d s stage.tasks s hs h'
    exact ⟨hs, by simpa [execute_stage, execute_tasks_parallel, hp] using hrel⟩
  · have h' : (execute_tasks_sequential o wid stage.tasks s).2.1.task_results d = none := by
      simpa [execute_stage, hp] using h
    obtain ⟨hs, hrel⟩ := seq_dep_unrecorded o wid d stage.tasks s h'
    exact ⟨hs, by simpa [execute_stage, hp] using hrel⟩

lemma stages_dep_unrecorded (o : Oracle) (stages : List WorkflowStage) (idx : Nat)
    (w : Workflow) (s : OrchState) (d : String)
    (h : (run_stages o stages idx w s).2.2.1.task_results d = none) :
    s.task_results d = none ∧
    List.Forall₂ (fun st st' =>
        List.Forall₂ (fun t t' => t'.dependencies = t.dependencies ∧ (d ∈ t.dependencies → t' = t))
          st.tasks st'.tasks)
      stages (run_stages o stages idx w s).1 := by
  induction stages generalizing idx w s with
  | nil => exact ⟨by simpa [run_stages] using h, by simp [run_stages]⟩
  | cons stage rest ih =>
    unfold run_stages at h ⊢
    dsimp only at h ⊢
    split at h
    · rename_i hcond
      rw [if_pos hcond]
      obtain ⟨hs, hrel⟩ := stage_dep_unrecorded o w.id d stage s h
      exact ⟨hs, List.Forall₂.cons hrel
        (List.forall₂_same.mpr fun st _ => List.forall₂_same.mpr fun t _ => ⟨rfl, fun _ => rfl⟩)⟩
    · rename_i hcond
      rw [if_neg hcond]
      obtain ⟨hs2, hrel2⟩ := ih (idx + 1) { w with current_stage := idx }
        (publishLog (execute_stage o w.id stage s).2.1
          (Event.workflow_stage_completed w.id stage.name idx
            (execute_stage o w.id stage s).2.2)) h
      have hs' : (execute_stage o w.id stage s).2.1.task_results d = none := by
        simpa [publishLog] using hs2
      obtain ⟨hs, hrel1⟩ := stage_dep_unrecorded o w.id d stage s hs'
      exact ⟨hs, List.Forall₂.cons hrel1 hrel2⟩

lemma execute_workflow_dep_unrecorded (o : Oracle) (w : Workflow) (s : OrchState) (d : String)
    (h : (execute_workflow o w s).2.1.task_results d = none) :
    List.Forall₂ (fun st st' =>
        List.Forall₂ (fun t t' => t'.dependencies = t.dependencies ∧ (d ∈ t.dependencies → t' = t))
          st.tasks st'.tasks)
      w.stages (execute_workflow o w s).1.stages := by
  unfold execute_workflow at h ⊢
  dsimp only at h ⊢
  split at h
  · rename_i hcond
    rw [if_pos hcond]
    have h' : (run_stages o w.stages 0
        { w with status := WorkflowStatus.running, started_at := some (tick s).1 }
        (publishLog (tick s).2 (Event.workflow_started w.id w.project_id))).2.2.1.task_results d =
          none := by
      simpa [publishLog, tick] using h
    exact (stages_dep_unrecorded o w.stages 0
      { w with status := WorkflowStatus.running, started_at := some (tick s).1 }
      (publishLog (tick s).2 (Event.workflow_started w.id w.project_id)) d h').2
  · rename_i hcond
    rw [if_neg hcond]
    exact (stages_dep_unrecorded o w.stages 0
      { w with status := WorkflowStatus.running, started_at := some (tick s).1 }
      (publishLog (tick s).2 (Event.workflow_started w.id w.project_id)) d h).2

/-- C7: for a 1-based attempt count the pre-jitter delay is `base_delay`
(fixed), `base_delay * attempt` (linear) or `base_delay * 2^(attempt-1)`
(exponential), clamped to `max_delay`; with jitter off the realized delay
equals that value exactly, and with jitter on (`r` the uniform draw in
`[0, 1)`) the realized delay lies in `[0.5 × computed, computed]`. -/
theorem calculate_retry_delay_spec (policy : RetryPolicy) (attempt : Nat) (r : ℚ)
    (hb : 0 ≤ policy.base_delay) (hm : 0 ≤ policy.max_delay)
    (hr0 : 0 ≤ r) (hr1 : r < 1) :
    let computed : ℚ :=
      min (if policy.backoff_strategy = "fixed" then policy.base_delay
           else if policy.backoff_strategy = "linear" then policy.base_delay * (attempt : ℚ)
           else if policy.backoff_strategy = "exponential" then policy.base_delay * 2 ^ (attempt - 1)
           else policy.base_delay)
          policy.max_delay
    (policy.jitter = false → calculate_retry_delay policy attempt r = computed) ∧
    (policy.jitter = true →
      computed / 2 ≤ calculate_retry_delay policy attempt r ∧
      calculate_retry_delay policy attempt r ≤ computed) := by
  intro computed
  have hc : 0 ≤ computed := by
    have hbase : (0 : ℚ) ≤
        (if policy.backoff_strategy = "fixed" then policy.base_delay
         else if policy.backoff_strategy = "linear" then policy.base_delay * (attempt : ℚ)
         else if policy.backoff_strategy = "exponential" then policy.base_delay * 2 ^ (attempt - 1)
         else policy.base_delay) := by
      split_ifs with h1 h2 h3
      · exact hb
      · exact mul_nonneg hb (by positivity)
      · exact mul_nonneg hb (by positivity)
      · exact hb
    exact le_min hbase hm
  constructor
  · intro hj
    simp only [calculate_retry_delay, hj]
    rfl
  · intro hj
    have hval : calculate_retry_delay policy attempt r = computed * (1/2 + r * (1/2)) := by
      simp only [calculate_retry_delay, hj]
      rfl
    rw [hval]
    constructor
    · have : computed * (1/2) ≤ computed * (1/2 + r * (1/2)) := by
        apply mul_le_mul_of_nonneg_left _ hc
        nlinarith
      linarith [this]
    · have : computed * (1/2 + r * (1/2)) ≤ computed * 1 := by
        apply mul_le_mul_of_nonneg_left _ hc
        nlinarith
      linarith [this]

/-- Witness for `calculate_retry_delay_spec` at a concrete policy and draw. -/
theorem calculate_retry_delay_spec_witness :
    ((false = false → calculate_retry_delay { jitter := false } 3 (1/4) =
        min ((1 : ℚ) * 2 ^ (3 - 1)) 300) ∧
     (false = true →
        min ((1 : ℚ) * 2 ^ (3 - 1)) 300 / 2 ≤ calculate_retry_delay { jitter := false } 3 (1/4) ∧
        calculate_retry_delay { jitter := false } 3 (1/4) ≤ min ((1 : ℚ) * 2 ^ (3 - 1)) 300)) := by
  have h := calculate_retry_delay_spec { jitter := false } 3 (1/4)
    (by norm_num) (by norm_num) (by norm_num) (by norm_num)
  simpa using h

/-- C10: an unrecognized `backoff_strategy` string is not rejected; the
delay silently falls back to `base_delay`, exactly as for the `fixed`
strategy, before the clamp and jitter are applied. -/
theorem unknown_backoff_falls_back_to_fixed (policy : RetryPolicy) (attempt : Nat) (r : ℚ)
    (h1 : policy.backoff_strategy ≠ "fixed")
    (h2 : policy.backoff_strategy ≠ "linear")
    (h3 : policy.backoff_strategy ≠ "exponential") :
    calculate_retry_delay policy attempt r =
      calculate_retry_delay { policy with backoff_strategy := "fixed" } attempt r := by
  simp only [calculate_retry_delay, h1, h2, h3, if_false, if_true, reduceIte]

/-- Witness for `unknown_backoff_falls_back_to_fixed` at the strategy
string "bogus". -/
theorem unknown_backoff_falls_back_to_fixed_witness :
    calculate_retry_delay { backoff_strategy := "bogus" } 2 (1/3) =
      calculate_retry_delay
        { ({ backoff_strategy := "bogus" } : RetryPolicy) with backoff_strategy := "fixed" }
        2 (1/3) :=
  unknown_backoff_falls_back_to_fixed { backoff_strategy := "bogus" } 2 (1/3)
    (by decide) (by decide) (by decide)

end WorkflowOrchestration

namespace WorkflowOrchestration

/-- C1 counterexample: in a sequential `continue_on_error` stage of three
tasks where the second fails every attempt, the third task is never
executed (it stays PENDING, not COMPLETED as the claim states) and the
`workflow.stage_completed` event reports `success = false`, not success. -/
theorem continue_on_error_claim_counterexample :
    ((execute_workflow oracleFailT2 wfThree OrchState.init).1.stages.map
        fun st => st.tasks.map Task.status) =
      [[TaskStatus.completed, TaskStatus.failed, TaskStatus.pending]] ∧
    (execute_workflow oracleFailT2 wfThree OrchState.init).2.1.events =
      [Event.workflow_started "wf" "p", Event.task_completed "wf" "t1",
       Event.task_failed "wf" "t2" "boom" 2,
       Event.workflow_stage_completed "wf" "s" 0 false,
       Event.workflow_completed "wf" 6] := by
  constructor <;>
    simp [execute_workflow, run_stages, execute_stage, execute_tasks_sequential, execute_task,
      can_execute_task, oracleFailT2, wfThree, taskNamed, tick, publishLog, recordResult,
      OrchState.init]

/-- C2 counterexample: a failing `stop_on_error` stage halts the run and
sets the workflow FAILED with an error message, but the complete event
log of the run is `[workflow.started, task.failed]` — no `workflow.failed`
event is published, contrary to the claim. -/
theorem stop_on_error_claim_counterexample :
    (execute_workflow oracleFailT2 wfStop OrchState.init).2.2 = false ∧
    (execute_workflow oracleFailT2 wfStop OrchState.init).1.status = WorkflowStatus.failed ∧
    (execute_workflow oracleFailT2 wfStop OrchState.init).1.error_details =
      some "Stage s1 failed" ∧
    (execute_workflow oracleFailT2 wfStop OrchState.init).2.1.events =
      [Event.workflow_started "wf2" "p", Event.task_failed "wf2" "t2" "boom" 2] := by
  refine ⟨?_, ?_, ?_, ?_⟩ <;>
    simp [execute_workflow, run_stages, execute_stage, execute_tasks_sequential, execute_task,
      can_execute_task, oracleFailT2, wfStop, taskNamed, tick, publishLog, recordResult,
      OrchState.init]

/-- C3 counterexample: after running `wfA` (whose task "a" succeeds) the
result store still maps "a"; a subsequent run of a different workflow
`wfB`, whose only task depends on "a", observes that stale entry and
dispatches the task to COMPLETED — the store is not discarded after the
run and a later run does observe results recorded by an earlier one. -/
theorem result_store_not_discarded_counterexample :
    (execute_workflow oracleOk wfA OrchState.init).2.1.task_results "a" = some "ok" ∧
    ((execute_workflow oracleOk wfB
        (execute_workflow oracleOk wfA OrchState.init).2.1).1.stages.map
          fun st => st.tasks.map fun t => (t.status, t.attempt_count)) =
      [[(TaskStatus.completed, 1)]] := by
  constructor <;>
    simp [execute_workflow, run_stages, execute_stage, execute_tasks_sequential, execute_task,
      can_execute_task, oracleOk, wfA, wfB, taskNamed, tick, publishLog, recordResult,
      OrchState.init]

end WorkflowOrchestration

namespace WorkflowOrchestration

/-- C1 amended: under `continue_on_error` the workflow run itself still
succeeds (returns `True`, workflow COMPLETED) and the failing task ends
FAILED with its retries exhausted, but a sequential stage stops
dispatching at the first terminally failed task — tasks after it stay
PENDING with attempt count 0 — and the stage is reported with
`success = false` in the `workflow.stage_completed` event. -/
theorem continue_on_error_amended :
    (execute_workflow oracleFailT2 wfThree OrchState.init).2.2 = true ∧
    (execute_workflow oracleFailT2 wfThree OrchState.init).1.status =
      WorkflowStatus.completed ∧
    ((execute_workflow oracleFailT2 wfThree OrchState.init).1.stages.map
        fun st => st.tasks.map fun t => (t.status, t.attempt_count)) =
      [[(TaskStatus.completed, 1), (TaskStatus.failed, 2), (TaskStatus.pending, 0)]] ∧
    Event.workflow_stage_completed "wf" "s" 0 false ∈
      (execute_workflow oracleFailT2 wfThree OrchState.init).2.1.events := by
  refine ⟨?_, ?_, ?_, ?_⟩ <;>
    simp [execute_workflow, run_stages, execute_stage, execute_tasks_sequential, execute_task,
      can_execute_task, oracleFailT2, wfThree, taskNamed, tick, publishLog, recordResult,
      OrchState.init]

/-- C2 amended: whenever `execute_workflow` returns `False`, some stage
with failure strategy `stop_on_error` failed; the workflow is FAILED with
an error message, `current_stage` points at the failing stage, every
stage after it is returned untouched (halts immediately), and no
`workflow.failed` event is published by the run (the only publish site
for that event is the unreachable top-level exception handler). -/
theorem stop_on_error_amended (o : Oracle) (w : Workflow) (s : OrchState)
    (h : (execute_workflow o w s).2.2 = false) :
    (execute_workflow o w s).1.status = WorkflowStatus.failed ∧
    (execute_workflow o w s).1.error_details ≠ none ∧
    (∃ i, i < w.stages.length ∧
      (execute_workflow o w s).1.current_stage = i ∧
      (∃ st, w.stages[i]? = some st ∧ st.failure_strategy = "stop_on_error") ∧
      (execute_workflow o w s).1.stages.drop (i + 1) = w.stages.drop (i + 1)) ∧
    ∀ wid err, Event.workflow_failed wid err ∈ (execute_workflow o w s).2.1.events →
      Event.workflow_failed wid err ∈ s.events := by
  obtain ⟨h1, h2, hex⟩ := execute_workflow_halt o w s h
  obtain ⟨l, hl, hall⟩ := execute_workflow_events o w s
  refine ⟨h1, h2, hex, ?_⟩
  intro wid err hmem
  rw [hl] at hmem
  rcases List.mem_append.mp hmem with hm | hm
  · exact hm
  · exact absurd rfl (hall _ hm wid err)

/-- Witness for `stop_on_error_amended` on the concrete two-stage
workflow `wfStop`. -/
theorem stop_on_error_amended_witness :
    (execute_workflow oracleFailT2 wfStop OrchState.init).1.status = WorkflowStatus.failed ∧
    (execute_workflow oracleFailT2 wfStop OrchState.init).1.error_details ≠ none ∧
    (∃ i, i < wfStop.stages.length ∧
      (execute_workflow oracleFailT2 wfStop OrchState.init).1.current_stage = i ∧
      (∃ st, wfStop.stages[i]? = some st ∧ st.failure_strategy = "stop_on_error") ∧
      (execute_workflow oracleFailT2 wfStop OrchState.init).1.stages.drop (i + 1) =
        wfStop.stages.drop (i + 1)) ∧
    ∀ wid err,
      Event.workflow_failed wid err ∈
          (execute_workflow oracleFailT2 wfStop OrchState.init).2.1.events →
        Event.workflow_failed wid err ∈ OrchState.init.events :=
  stop_on_error_amended oracleFailT2 wfStop OrchState.init
    (by simp [execute_workflow, run_stages, execute_stage, execute_tasks_sequential,
      execute_task, can_execute_task, oracleFailT2, wfStop, taskNamed, tick, publishLog,
      recordResult, OrchState.init])

/-- C3 amended: the store is keyed by task id and, in a run of a
workflow with pairwise distinct task ids, written at most once per task
id; but instead of being discarded on completion, every entry present
before the run is still present after it. -/
theorem result_store_amended (o : Oracle) (w : Workflow) (s : OrchState)
    (hnd : w.taskIds.Nodup) :
    (∃ l, (execute_workflow o w s).2.1.writes = s.writes ++ l ∧ l.Nodup ∧
      ∀ i ∈ l, i ∈ w.taskIds) ∧
    ∀ k, s.task_results k ≠ none → (execute_workflow o w s).2.1.task_results k ≠ none := by
  obtain ⟨l, hl, hsub⟩ := execute_workflow_writes o w s
  exact ⟨⟨l, hl, hnd.sublist hsub, fun i hi => hsub.subset hi⟩,
    fun k hk => execute_workflow_store_some o w s k hk⟩

/-- Witness for `result_store_amended` on the one-task workflow `wfA`. -/
theorem result_store_amended_witness :
    (∃ l, (execute_workflow oracleOk wfA OrchState.init).2.1.writes =
        OrchState.init.writes ++ l ∧ l.Nodup ∧ ∀ i ∈ l, i ∈ wfA.taskIds) ∧
    ∀ k, OrchState.init.task_results k ≠ none →
      (execute_workflow oracleOk wfA OrchState.init).2.1.task_results k ≠ none :=
  result_store_amended oracleOk wfA OrchState.init (by decide)

/-- C4: for every workflow run whose tasks start PENDING with attempt
count 0 and a retry policy allowing at least one attempt, every task of
the resulting workflow (i) has an attempt counter bounded by its own
policy's `max_attempts` (the counter is incremented exactly once per
execution, so the task executes at most `max_attempts` times), (ii) is
marked FAILED only upon exhausting its attempts (FAILED implies the
counter equals `max_attempts`), and (iii) once its attempts are
exhausted without success it is marked FAILED instead of being
re-dispatched. -/
theorem max_attempts_bound (o : Oracle) (w : Workflow) (s : OrchState)
    (hinit : ∀ st ∈ w.stages, ∀ t ∈ st.tasks,
      t.attempt_count = 0 ∧ 1 ≤ t.retry_policy.max_attempts ∧
        t.status = TaskStatus.pending) :
    ∀ st' ∈ (execute_workflow o w s).1.stages, ∀ t' ∈ st'.tasks,
      t'.attempt_count ≤ t'.retry_policy.max_attempts ∧
      (t'.status = TaskStatus.failed →
        t'.attempt_count = t'.retry_policy.max_attempts) ∧
      (t'.attempt_count = t'.retry_policy.max_attempts →
        t'.status ≠ TaskStatus.completed → t'.status = TaskStatus.failed) := by
  intro st' hst' t' ht'
  obtain ⟨st, hst, hrel⟩ := forall₂_mem_right (execute_workflow_tasks_rel o w s) hst'
  obtain ⟨t, ht, hcase⟩ := forall₂_mem_right hrel ht'
  obtain ⟨h0, h1, hpend⟩ := hinit st hst t ht
  rcases hcase with rfl | ⟨s1, rfl⟩
  · refine ⟨by omega, ?_, ?_⟩
    · intro hfail
      rw [hpend] at hfail
      cases hfail
    · intro hmax _
      exfalso
      omega
  · have hshape := execute_task_task_shape o w.id t s1
    have hatt := execute_task_attempts o w.id t s1
    have hout := execute_task_outcome o w.id t s1
    have hle : (execute_task o w.id t s1).1.attempt_count ≤ t.retry_policy.max_attempts :=
      hatt.2 (by omega)
    refine ⟨by rw [hshape.2.2]; exact hle, ?_, ?_⟩
    · intro hfail
      rcases hout with hc | ⟨hf, hge⟩
      · rw [hc] at hfail
        cases hfail
      · rw [hshape.2.2]
        omega
    · intro _ hnc
      rcases hout with hc | ⟨hf, _⟩
      · exact absurd hc hnc
      · exact hf

/-- Witness for `max_attempts_bound` on the run of `wfThree` in which
task "t2" fails every attempt. -/
theorem max_attempts_bound_witness :
    ((execute_workflow oracleFailT2 wfThree OrchState.init).1.stages.all fun st =>
      st.tasks.all fun t =>
        decide (t.attempt_count ≤ t.retry_policy.max_attempts ∧
          (t.status = TaskStatus.failed →
            t.attempt_count = t.retry_policy.max_attempts) ∧
          (t.attempt_count = t.retry_policy.max_attempts →
            t.status ≠ TaskStatus.completed →
              t.status = TaskStatus.failed))) = true := by
  have h := max_attempts_bound oracleFailT2 wfThree OrchState.init (by decide)
  rw [List.all_eq_true]
  intro st hst
  rw [List.all_eq_true]
  intro t ht
  exact decide_eq_true (h st hst t ht)

end WorkflowOrchestration

namespace WorkflowOrchestration

/-- C5 counterexample: `cancel_workflow` does not mutate only the
status field — it also overwrites `completed_at` with the current time
(here 9 becomes 42). -/
theorem admin_frame_claim_counterexample :
    wfDone.completed_at = some 9 ∧ (cancel_workflow wfDone 42).completed_at = some 42 :=
  ⟨rfl, rfl⟩

/-- C5 amended: `pause` and `resume` mutate only the workflow's status
field; `cancel` mutates exactly the status field and `completed_at`
(stamped with the current time), leaving every other field unchanged. -/
theorem admin_frame_amended (w : Workflow) (now : Nat) :
    ((pause_workflow w).id = w.id ∧ (pause_workflow w).name = w.name ∧
     (pause_workflow w).project_id = w.project_id ∧ (pause_workflow w).stages = w.stages ∧
     (pause_workflow w).current_stage = w.current_stage ∧
     (pause_workflow w).started_at = w.started_at ∧
     (pause_workflow w).completed_at = w.completed_at ∧
     (pause_workflow w).metadata = w.metadata ∧
     (pause_workflow w).error_details = w.error_details) ∧
    ((resume_workflow w).id = w.id ∧ (resume_workflow w).name = w.name ∧
     (resume_workflow w).project_id = w.project_id ∧ (resume_workflow w).stages = w.stages ∧
     (resume_workflow w).current_stage = w.current_stage ∧
     (resume_workflow w).started_at = w.started_at ∧
     (resume_workflow w).completed_at = w.completed_at ∧
     (resume_workflow w).metadata = w.metadata ∧
     (resume_workflow w).error_details = w.error_details) ∧
    ((cancel_workflow w now).id = w.id ∧ (cancel_workflow w now).name = w.name ∧
     (cancel_workflow w now).project_id = w.project_id ∧
     (cancel_workflow w now).stages = w.stages ∧
     (cancel_workflow w now).current_stage = w.current_stage ∧
     (cancel_workflow w now).started_at = w.started_at ∧
     (cancel_workflow w now).metadata = w.metadata ∧
     (cancel_workflow w now).error_details = w.error_details ∧
     (cancel_workflow w now).completed_at = some now) := by
  refine ⟨⟨rfl, rfl, rfl, rfl, rfl, rfl, rfl, rfl, rfl⟩, ?_,
    ⟨rfl, rfl, rfl, rfl, rfl, rfl, rfl, rfl, rfl⟩⟩
  unfold resume_workflow
  split <;> exact ⟨rfl, rfl, rfl, rfl, rfl, rfl, rfl, rfl, rfl⟩

/-- C6 counterexample: `pause_workflow` moves a COMPLETED (terminal)
workflow to PAUSED, so orchestrator operations do move workflows out of
terminal statuses. -/
theorem monotonic_status_claim_counterexample :
    wfDone.status = WorkflowStatus.completed ∧
    (pause_workflow wfDone).status = WorkflowStatus.paused :=
  ⟨rfl, rfl⟩

/-- C6 amended: the administrative operations do not guard terminal
states: `pause` sets PAUSED and `cancel` sets CANCELLED from any current
status whatsoever (including the terminal ones), while only `resume` is
guarded — it moves PAUSED to RUNNING and otherwise changes nothing. -/
theorem admin_status_amended (w : Workflow) (now : Nat) :
    (pause_workflow w).status = WorkflowStatus.paused ∧
    (cancel_workflow w now).status = WorkflowStatus.cancelled ∧
    (w.status = WorkflowStatus.paused →
      (resume_workflow w).status = WorkflowStatus.running) ∧
    (w.status ≠ WorkflowStatus.paused → resume_workflow w = w) := by
  refine ⟨rfl, rfl, ?_, ?_⟩
  · intro h
    simp [resume_workflow, h]
  · intro h
    simp [resume_workflow, h]

/-- Witness for `admin_status_amended` on the completed workflow
`wfDone`. -/
theorem admin_status_amended_witness :
    (pause_workflow wfDone).status = WorkflowStatus.paused ∧
    resume_workflow wfDone = wfDone :=
  ⟨(admin_status_amended wfDone 0).1, (admin_status_amended wfDone 0).2.2.2 (by decide)⟩

/-- C8: in a run on a fresh orchestrator, a task depending on an id `d`
that never receives a recorded result in the run's result store is never
dispatched: it ends the run with status PENDING and attempt count 0,
reaching neither COMPLETED nor FAILED.  "Never receives a recorded
result" is stated as the store having no entry for `d` at the end of the
run; since the store starts empty and entries are only ever added, this
is exactly "no result for `d` was recorded at any point of the run", and
it covers both a dependency id carried by no task and a dependency task
that exists but fails every attempt. -/
theorem unmet_dependency_never_dispatched (o : Oracle) (w : Workflow) (d : String)
    (hrec : (execute_workflow o w OrchState.init).2.1.task_results d = none)
    (hinit : ∀ st ∈ w.stages, ∀ t ∈ st.tasks, d ∈ t.dependencies →
      t.status = TaskStatus.pending ∧ t.attempt_count = 0) :
    ∀ st' ∈ (execute_workflow o w OrchState.init).1.stages, ∀ t' ∈ st'.tasks,
      d ∈ t'.dependencies →
        t'.status = TaskStatus.pending ∧ t'.attempt_count = 0 ∧
        t'.status ≠ TaskStatus.completed ∧ t'.status ≠ TaskStatus.failed := by
  intro st' hst' t' ht' hdep
  obtain ⟨st, hst, hrel⟩ :=
    forall₂_mem_right (execute_workflow_dep_unrecorded o w OrchState.init d hrec) hst'
  obtain ⟨t, ht, hrt⟩ := forall₂_mem_right hrel ht'
  have hdept : d ∈ t.dependencies := hrt.1 ▸ hdep
  have ht'eq : t' = t := hrt.2 hdept
  obtain ⟨hp, ha⟩ := hinit st hst t ht hdept
  refine ⟨?_, ?_, ?_, ?_⟩ <;> rw [ht'eq]
  · exact hp
  · exact ha
  · rw [hp]; intro hcontra; cases hcontra
  · rw [hp]; intro hcontra; cases hcontra

/-- Witness for `unmet_dependency_never_dispatched` on `wfDep`, whose
task "b" depends on task "t2", which exists in the same stage but fails
every attempt and so never records a result. -/
theorem unmet_dependency_never_dispatched_witness :
    ((execute_workflow oracleFailT2 wfDep OrchState.init).1.stages.all fun st =>
      st.tasks.all fun t =>
        decide ("t2" ∈ t.dependencies →
          t.status = TaskStatus.pending ∧ t.attempt_count = 0 ∧
          t.status ≠ TaskStatus.completed ∧ t.status ≠ TaskStatus.failed)) = true := by
  have h := unmet_dependency_never_dispatched oracleFailT2 wfDep "t2"
    (by simp [execute_workflow, run_stages, execute_stage, execute_tasks_parallel,
      run_parallel, execute_task, can_execute_task, oracleFailT2, wfDep, taskNamed, tick,
      publishLog, recordResult, OrchState.init])
    (by decide)
  rw [List.all_eq_true]
  intro st hst
  rw [List.all_eq_true]
  intro t ht
  exact decide_eq_true fun hdep => h st hst t ht hdep

/-- C9: publishing with no subscribers for the type returns the state
unchanged and raises nothing; subscribers run sequentially in
subscription order (a newly subscribed callback runs exactly after all
previously subscribed ones); and a subscriber that raises on every state
neither prevents the remaining subscribers from running nor propagates
its exception to the publisher (`publish` is total and behaves as if the
raising subscriber were absent). -/
theorem event_bus_publish_spec {Data σ : Type} (bus : EventBus Data σ)
    (event_type : String) (data : Data) (st : σ) :
    (bus.subscribers event_type = [] → bus.publish event_type data st = st) ∧
    (∀ cb, (bus.subscribe event_type cb).publish event_type data st =
      runCallback data (bus.publish event_type data st) cb) ∧
    (∀ f g e, (∀ x, f data x = Except.error e) →
      ((bus.subscribe event_type f).subscribe event_type g).publish event_type data st =
        runCallback data (bus.publish event_type data st) g) := by
  refine ⟨?_, ?_, ?_⟩
  · intro h
    simp [EventBus.publish, h]
  · intro cb
    simp [EventBus.publish, EventBus.subscribe, List.foldl_append]
  · intro f g e hf
    simp [EventBus.publish, EventBus.subscribe, List.foldl_append, runCallback, hf]

/-- Witness for `event_bus_publish_spec` on the empty bus. -/
theorem event_bus_publish_spec_witness :
    (EventBus.emptyBus Nat Nat).publish "t" 0 5 = 5 :=
  (event_bus_publish_spec (EventBus.emptyBus Nat Nat) "t" 0 5).1 rfl

end WorkflowOrchestration
